import Mathlib

set_option maxRecDepth 10000

/-!
Shallow embedding of the `mesh` repository's core (mesh-core), covering the
flood router (`src/mesh-core/src/router.rs`), message TTL handling
(`src/mesh-core/src/message.rs`) and the file-transfer manager
(`src/mesh-core/src/file_transfer.rs`).

Modelling conventions:
* 32-byte node ids, 32-byte message ids and 16-byte file ids are modelled as
  `Nat` (they are only ever compared for equality in the embedded code).
* `std::time::Instant` is modelled as a `Nat` number of seconds; every
  operation that calls `Instant::now()` in the source takes the current time
  `now : Nat` as an explicit argument.  `now.duration_since t > 300s`
  becomes `now - t > 300` (Nat subtraction saturates, as `duration_since`
  does for the reachable `t ≤ now`).
* `HashSet` / `HashMap` are modelled as lists: a `HashSet` is a list kept
  duplicate-free by inserting only absent elements, a `HashMap` is an
  association list whose `insert` replaces an existing binding.
* Rust methods that mutate `&mut self` become functions returning the new
  state (paired with the return value, if any).
* SHA-256 is never computed on in the claims below, only compared for
  equality, so the file-transfer functions take the hash function as an
  explicit argument `hash : List Nat → Nat` (file contents are byte lists).
* I/O (file reads, OS randomness) is factored out: `prepare_send` receives
  the bytes read from the file and the freshly drawn random `file_id` as
  arguments, and `finalize_incoming` returns the path it would write
  instead of writing it.
-/

set_option autoImplicit false

namespace Mesh

/-- Message ids, node ids and file ids, abstracted to `Nat`. -/
abbrev MessageId := Nat

abbrev NodeId := Nat

/-- `MessageType` from `src/mesh-core/src/message.rs`. -/
inductive MessageType where
  | Discovery | Ping | Pong
  | Text | PublicBroadcast | SOS
  | FileChunk | FileOffer | FileAccept
  | Voice | VoiceStream | CallStart | CallEnd
  | PeerExchange | KeyExchange | ProfileUpdate
  | ReadReceipt | TypingStart | TypingStop
  | GroupMessage | GroupJoin | GroupLeave
  | CheckIn | Triage | ResourceReq | Disappearing
  deriving DecidableEq, Repr

/-- `MeshMessage` (wire entity) from `src/mesh-core/src/message.rs`.
The signature field is irrelevant to the embedded operations and omitted. -/
structure MeshMessage where
  msg_type : MessageType
  sender_id : NodeId
  msg_id : MessageId
  ttl : Nat
  destination : Option NodeId
  payload : List Nat
  deriving DecidableEq, Repr

namespace MeshMessage

/-- `MeshMessage::decrement_ttl`: `none` models the `false` return (TTL
already 0, message unchanged), `some m'` the `true` return with the
decremented message. -/
def decrement_ttl (m : MeshMessage) : Option MeshMessage :=
  if m.ttl = 0 then none else some { m with ttl := m.ttl - 1 }

end MeshMessage

/-- `MeshStats` from `src/mesh-core/src/router.rs` (the counters the
claims mention; `total_peers` is untouched by the router operations). -/
structure MeshStats where
  total_peers : Nat := 0
  messages_relayed : Nat := 0
  messages_received : Nat := 0
  unique_nodes_seen : Nat := 0
  total_hops_observed : Nat := 0
  hop_count_samples : Nat := 0
  deriving DecidableEq, Repr

def SEEN_EXPIRY : Nat := 300

def MAX_SEEN_CACHE : Nat := 10000

/-- `Router` from `src/mesh-core/src/router.rs`. -/
structure Router where
  seen : List MessageId
  seen_times : List (MessageId × Nat)
  our_node_id : NodeId
  all_nodes_seen : List NodeId
  stats : MeshStats
  deriving DecidableEq, Repr

namespace Router

/-- `Router::new`. -/
def new (our_node_id : NodeId) : Router :=
  { seen := [], seen_times := [], our_node_id,
    all_nodes_seen := [our_node_id], stats := {} }

/-- `Router::cleanup`: drop every `seen_times` entry older than
`SEEN_EXPIRY`, removing the corresponding id from `seen`. -/
def cleanup (now : Nat) (r : Router) : Router :=
  let expired := r.seen_times.filter (fun p => SEEN_EXPIRY < now - p.2)
  { r with
    seen_times := r.seen_times.filter (fun p => ¬ SEEN_EXPIRY < now - p.2),
    seen := r.seen.filter (fun id => ¬ expired.any (fun p => p.1 = id)) }

/-- `HashSet::insert` on the duplicate-free list model. -/
def setInsert (x : Nat) (s : List Nat) : List Nat :=
  if x ∈ s then s else x :: s

/-- `Router::mark_seen`. -/
def mark_seen (now : Nat) (r : Router) (msg_id : MessageId) : Router :=
  let r := { r with
    seen := setInsert msg_id r.seen,
    seen_times := r.seen_times ++ [(msg_id, now)] }
  if MAX_SEEN_CACHE < r.seen_times.length then cleanup now r else r

/-- The per-type original TTL table of `Router::record_hops`; `none` models
the early `return` for Discovery/Ping/Pong/PeerExchange/KeyExchange. -/
def originalTTL : MessageType → Option Nat
  | .Text => some 10
  | .PublicBroadcast => some 50
  | .SOS => some 255
  | .ProfileUpdate => some 3
  | .Voice => some 10
  | .VoiceStream | .CallStart | .CallEnd => some 2
  | .FileOffer | .FileChunk | .FileAccept => some 10
  | .ReadReceipt | .GroupMessage | .Disappearing => some 10
  | .TypingStart | .TypingStop => some 1
  | .CheckIn | .Triage | .ResourceReq => some 50
  | .GroupJoin | .GroupLeave => some 10
  | _ => none

/-- `Router::record_hops` (Nat subtraction is `saturating_sub`). -/
def record_hops (r : Router) (msg : MeshMessage) : Router :=
  match originalTTL msg.msg_type with
  | none => r
  | some original =>
    let hops := original - msg.ttl
    if 0 < hops then
      { r with stats := { r.stats with
          total_hops_observed := r.stats.total_hops_observed + hops,
          hop_count_samples := r.stats.hop_count_samples + 1 } }
    else r

/-- `Router::is_for_us`. -/
def is_for_us (r : Router) (msg : MeshMessage) : Bool :=
  match msg.destination with
  | none => true
  | some dest => dest = r.our_node_id

/-- `Router::should_forward`. -/
def should_forward (r : Router) (msg : MeshMessage) : Bool :=
  match msg.destination with
  | none => true
  | some dest => dest ≠ r.our_node_id

/-- The tail of `Router::should_process` once the message has been
accepted: mark seen, track the sender, record hops, count received. -/
def absorb (now : Nat) (r : Router) (msg : MeshMessage) : Router :=
  let r := mark_seen now r msg.msg_id
  let r := { r with all_nodes_seen := setInsert msg.sender_id r.all_nodes_seen }
  let r := { r with stats := { r.stats with
      unique_nodes_seen := r.all_nodes_seen.length } }
  let r := record_hops r msg
  if is_for_us r msg then
    { r with stats := { r.stats with
        messages_received := r.stats.messages_received + 1 } }
  else r

/-- `Router::should_process`: the returned `Bool` together with the
updated router state. -/
def should_process (now : Nat) (r : Router) (msg : MeshMessage) :
    Bool × Router :=
  if msg.sender_id = r.our_node_id then (false, r)
  else
    let is_sos := msg.msg_type = MessageType.SOS
    if msg.ttl = 0 then (false, r)
    else if msg.msg_id ∈ r.seen then (false, r)
    else if ¬ is_sos ∧ MAX_SEEN_CACHE ≤ r.seen.length then
      let r1 := cleanup now r
      if MAX_SEEN_CACHE ≤ r1.seen.length then (false, r1)
      else (true, absorb now r1 msg)
    else (true, absorb now r msg)

/-- `Router::prepare_forward`. -/
def prepare_forward (r : Router) (msg : MeshMessage) :
    Option MeshMessage × Router :=
  match msg.decrement_ttl with
  | some forwarded =>
    (some forwarded,
     { r with stats := { r.stats with
         messages_relayed := r.stats.messages_relayed + 1 } })
  | none => (none, r)

/-- The seen-cache / seen-times synchronisation the source maintains:
every timestamped id is in the seen set. -/
def WF (r : Router) : Prop := ∀ p ∈ r.seen_times, p.1 ∈ r.seen

end Router

/-! ## File transfer (`src/mesh-core/src/file_transfer.rs`) -/

/-- `HashMap` lookup on the association-list model. -/
def alGet {α : Type} (k : Nat) : List (Nat × α) → Option α
  | [] => none
  | (k', v) :: rest => if k' = k then some v else alGet k rest

/-- `HashMap::insert`: one binding per key, the new one replacing any old. -/
def alInsert {α : Type} (k : Nat) (v : α) (l : List (Nat × α)) :
    List (Nat × α) :=
  (k, v) :: l.filter (fun p => p.1 ≠ k)

/-- `HashMap::get_mut` at key `k` followed by an in-place mutation `f`. -/
def alUpdate {α : Type} (k : Nat) (f : α → α) : List (Nat × α) → List (Nat × α)
  | [] => []
  | (q, v) :: rest => (if q = k then (q, f v) else (q, v)) :: alUpdate k f rest

/-- `HashMap::remove` (the removed value is looked up with `alGet`). -/
def alRemove {α : Type} (k : Nat) (l : List (Nat × α)) : List (Nat × α) :=
  l.filter (fun p => p.1 ≠ k)

def CHUNK_SIZE : Nat := 64 * 1024

def MAX_FILE_SIZE : Nat := 100 * 1024 * 1024

/-- `FileOfferPayload` from `src/mesh-core/src/message.rs` (the SHA-256
hash, only ever compared for equality, is a `Nat`). -/
structure FileOfferPayload where
  file_id : Nat
  filename : String
  size_bytes : Nat
  chunk_count : Nat
  sha256_hash : Nat
  deriving DecidableEq, Repr

/-- `FileChunkPayload` from `src/mesh-core/src/message.rs`. -/
structure FileChunkPayload where
  file_id : Nat
  sequence : Nat
  data : List Nat
  deriving DecidableEq, Repr

/-- `OutgoingTransfer`. -/
structure OutgoingTransfer where
  metadata : FileOfferPayload
  dest : NodeId
  chunks : List (List Nat)
  next_chunk : Nat
  accepted : Bool
  deriving DecidableEq, Repr

/-- `IncomingTransfer` (`PathBuf` modelled as `String`). -/
structure IncomingTransfer where
  metadata : FileOfferPayload
  sender_id : NodeId
  chunks : List (Nat × List Nat)
  accepted : Bool
  save_dir : String
  deriving DecidableEq, Repr

/-- `FileTransferManager`. -/
structure FileTransferManager where
  outgoing : List (Nat × OutgoingTransfer)
  incoming : List (Nat × IncomingTransfer)
  save_dir : String
  deriving DecidableEq, Repr

/-- `data.chunks(CHUNK_SIZE)` from the Rust slice API: successive
sub-slices of `CHUNK_SIZE` elements, the last possibly shorter; the empty
slice yields no chunks. -/
def chunkSplit : List Nat → List (List Nat)
  | [] => []
  | a :: rest =>
    ((a :: rest).take CHUNK_SIZE) :: chunkSplit ((a :: rest).drop CHUNK_SIZE)
termination_by l => l.length
decreasing_by simp [CHUNK_SIZE]; omega

namespace FileTransferManager

/-- `FileTransferManager::new`. -/
def new (save_dir : String) : FileTransferManager :=
  { outgoing := [], incoming := [], save_dir }

/-- `FileTransferManager::prepare_send`.  The bytes `data` read from the
file, the random `file_id` drawn from the OS, and the `filename` component
of the path are passed in explicitly (the read, the RNG and the path
decomposition are I/O); `hash` stands for SHA-256. -/
def prepare_send (hash : List Nat → Nat) (m : FileTransferManager)
    (dest : NodeId) (file_id : Nat) (filename : String) (data : List Nat) :
    Except String FileOfferPayload × FileTransferManager :=
  if MAX_FILE_SIZE < data.length then
    (Except.error ("File too large: " ++ toString data.length ++ " bytes"), m)
  else
    let chunk_count := max ((data.length + CHUNK_SIZE - 1) / CHUNK_SIZE) 1
    let metadata : FileOfferPayload :=
      { file_id, filename, size_bytes := data.length, chunk_count,
        sha256_hash := hash data }
    let chunks := if data.isEmpty then [[]] else chunkSplit data
    (Except.ok metadata,
     { m with outgoing :=
        (alInsert file_id
          { metadata, dest, chunks, next_chunk := 0, accepted := false }
          m.outgoing) })

/-- `FileTransferManager::mark_accepted`. -/
def mark_accepted (m : FileTransferManager) (file_id : Nat) :
    Bool × FileTransferManager :=
  match alGet file_id m.outgoing with
  | some _ =>
    (true,
     { m with outgoing :=
        (alUpdate file_id (fun t => { t with accepted := true }) m.outgoing) })
  | none => (false, m)

/-- `FileTransferManager::next_chunk`.  The source indexes
`transfer.chunks[seq]`, which is in bounds in every reachable state
(`chunks.len() = chunk_count`); `List.getD` with default `[]` agrees with
it there. -/
def next_chunk (m : FileTransferManager) (file_id : Nat) :
    Option FileChunkPayload × FileTransferManager :=
  match alGet file_id m.outgoing with
  | none => (none, m)
  | some t =>
    if ¬ t.accepted ∨ t.metadata.chunk_count ≤ t.next_chunk then (none, m)
    else
      (some { file_id, sequence := t.next_chunk,
              data := t.chunks.getD t.next_chunk [] },
       { m with outgoing :=
          (alUpdate file_id
            (fun t => { t with next_chunk := t.next_chunk + 1 })
            m.outgoing) })

/-- `FileTransferManager::register_incoming`. -/
def register_incoming (m : FileTransferManager) (metadata : FileOfferPayload)
    (sender_id : NodeId) : FileTransferManager :=
  { m with incoming :=
      (alInsert metadata.file_id
        { metadata, sender_id, chunks := [], accepted := false,
          save_dir := m.save_dir }
        m.incoming) }

/-- `FileTransferManager::accept_incoming`. -/
def accept_incoming (m : FileTransferManager) (file_id : Nat) :
    Option NodeId × FileTransferManager :=
  match alGet file_id m.incoming with
  | none => (none, m)
  | some t =>
    (some t.sender_id,
     { m with incoming :=
        (alUpdate file_id (fun t => { t with accepted := true }) m.incoming) })

/-- `FileTransferManager::receive_chunk`.  The progress percentage is
computed in `f64` in the source and truncated to `u8`; it is modelled with
Nat division (none of the verified claims depend on its value). -/
def receive_chunk (m : FileTransferManager) (file_id sequence : Nat)
    (data : List Nat) : Option Nat × FileTransferManager :=
  match alGet file_id m.incoming with
  | none => (none, m)
  | some t =>
    if ¬ t.accepted then (none, m)
    else
      let chunks' := alInsert sequence data t.chunks
      (some (min (chunks'.length * 100 / t.metadata.chunk_count) 100),
       { m with incoming :=
          (alUpdate file_id
            (fun t => { t with chunks := alInsert sequence data t.chunks })
            m.incoming) })

/-- `FileTransferManager::is_incoming_complete`. -/
def is_incoming_complete (m : FileTransferManager) (file_id : Nat) : Bool :=
  match alGet file_id m.incoming with
  | some t => t.metadata.chunk_count ≤ t.chunks.length
  | none => false

/-- The reassembly loop of `finalize_incoming`: concatenate the chunks of
sequences `i, i+1, …, i+n-1`, failing with the first missing sequence. -/
def assemble (chunks : List (Nat × List Nat)) : Nat → Nat → Except Nat (List Nat)
  | _, 0 => Except.ok []
  | i, n + 1 =>
    match alGet i chunks with
    | none => Except.error i
    | some c =>
      match assemble chunks (i + 1) n with
      | Except.error j => Except.error j
      | Except.ok rest => Except.ok (c ++ rest)

/-- `FileTransferManager::finalize_incoming`.  Directory creation and the
file write are I/O and always succeed in the model; on success the
function returns the path it writes (`save_dir` joined with the
filename). -/
def finalize_incoming (hash : List Nat → Nat) (m : FileTransferManager)
    (file_id : Nat) : Except String String × FileTransferManager :=
  match alGet file_id m.incoming with
  | none => (Except.error "Transfer not found", m)
  | some t =>
    let m' := { m with incoming := alRemove file_id m.incoming }
    match assemble t.chunks 0 t.metadata.chunk_count with
    | Except.error i => (Except.error ("Missing chunk " ++ toString i), m')
    | Except.ok data =>
      if hash data ≠ t.metadata.sha256_hash then
        (Except.error "File hash mismatch - transfer corrupted", m')
      else
        (Except.ok (t.save_dir ++ "/" ++ t.metadata.filename), m')

end FileTransferManager

/-- Pump for "successive calls to `next_chunk`": perform `fuel` calls,
collecting the returned payloads, stopping at the first `None`. -/
def drainChunks (file_id : Nat) :
    Nat → FileTransferManager → List FileChunkPayload × FileTransferManager
  | 0, m => ([], m)
  | k + 1, m =>
    match FileTransferManager.next_chunk m file_id with
    | (none, m') => ([], m')
    | (some p, m') =>
      let rest := drainChunks file_id k m'
      (p :: rest.1, rest.2)

/-- The ids `0, …, 9999` filling the seen-cache to its soft cap. -/
def capList : List MessageId := List.range MAX_SEEN_CACHE

/-- Timestamps for `capList`, all taken at time 0. -/
def capTimes : List (MessageId × Nat) := capList.map (fun i => (i, 0))

/-- A router whose seen-cache sits exactly at the soft cap, every entry
stamped at time 0 (hence unexpired at `now = 0`). -/
def routerAtCap : Router :=
  { seen := capList,
    seen_times := capTimes,
    our_node_id := 0,
    all_nodes_seen := [0],
    stats := {} }

/-- A Text message unknown to `routerAtCap`, from a foreign sender, with
a positive TTL. -/
def textAtCap : MeshMessage :=
  { msg_type := MessageType.Text, sender_id := 1, msg_id := MAX_SEEN_CACHE,
    ttl := 5, destination := none, payload := [] }

/-- An SOS message unknown to `routerAtCap`, from a foreign sender, with
full TTL. -/
def sosAtCap : MeshMessage :=
  { msg_type := MessageType.SOS, sender_id := 1,
    msg_id := MAX_SEEN_CACHE + 1, ttl := 255, destination := none,
    payload := [] }

/-- A fresh broadcast Text at its full initial TTL of 10. -/
def textFullTTL : MeshMessage :=
  { msg_type := MessageType.Text, sender_id := 2, msg_id := 7, ttl := 10,
    destination := none, payload := [] }

/-- A fresh broadcast Text two hops in (TTL 8 of the initial 10). -/
def textTwoHops : MeshMessage :=
  { msg_type := MessageType.Text, sender_id := 2, msg_id := 8, ttl := 8,
    destination := none, payload := [] }

/-- A computable stand-in for SHA-256 used in concrete witnesses (the
file-transfer claims are proved for an arbitrary `hash`). -/
def hashModel : List Nat → Nat :=
  fun data => data.foldl (fun a b => a * 31 + b + 1) 7

/-- Bytes of an oversized file: one byte past the 100 MiB cap. -/
def bigData : List Nat := List.replicate (MAX_FILE_SIZE + 1) 0

/-- Metadata of a one-chunk, two-byte incoming transfer. -/
def mdOne : FileOfferPayload :=
  { file_id := 5, filename := "blob", size_bytes := 2, chunk_count := 1,
    sha256_hash := hashModel [1, 2] }

/-- Manager that registered and accepted `mdOne` and then received a chunk
with the out-of-range sequence number 7. -/
def mgrOutOfRange : FileTransferManager :=
  ((((FileTransferManager.new "save").register_incoming mdOne 3).accept_incoming
      5).2.receive_chunk 5 7 [1, 2]).2

/-- Manager that registered and accepted `mdOne` and received the single
in-range chunk 0 with the right bytes. -/
def mgrInRange : FileTransferManager :=
  ((((FileTransferManager.new "save").register_incoming mdOne 3).accept_incoming
      5).2.receive_chunk 5 0 [1, 2]).2

/-- Manager that registered and accepted `mdOne` but received no chunk. -/
def mgrMissing : FileTransferManager :=
  (((FileTransferManager.new "save").register_incoming mdOne 3).accept_incoming
      5).2

/-- Manager that registered and accepted `mdOne` and received chunk 0 with
corrupted bytes. -/
def mgrBad : FileTransferManager :=
  ((((FileTransferManager.new "save").register_incoming mdOne 3).accept_incoming
      5).2.receive_chunk 5 0 [9, 9]).2

/-- The incoming record held by `mgrInRange`. -/
def tInRange : IncomingTransfer :=
  { metadata := mdOne, sender_id := 3, chunks := [(0, [1, 2])],
    accepted := true, save_dir := "save" }

/-- The incoming record held by `mgrMissing`. -/
def tMissing : IncomingTransfer :=
  { metadata := mdOne, sender_id := 3, chunks := [], accepted := true,
    save_dir := "save" }

/-- The incoming record held by `mgrBad`. -/
def tBad : IncomingTransfer :=
  { metadata := mdOne, sender_id := 3, chunks := [(0, [9, 9])],
    accepted := true, save_dir := "save" }

/-- The chunk count `prepare_send` computes for a file of `data`. -/
def sendChunkCount (data : List Nat) : Nat :=
  max ((data.length + CHUNK_SIZE - 1) / CHUNK_SIZE) 1

/-- Prepare a send, mark it accepted, then drain `next_chunk` exactly
`sendChunkCount data` times. -/
def sendDrain (hash : List Nat → Nat) (m0 : FileTransferManager)
    (dest fid : Nat) (fname : String) (data : List Nat) :
    List FileChunkPayload × FileTransferManager :=
  drainChunks fid (sendChunkCount data)
    ((FileTransferManager.prepare_send hash m0 dest fid fname
        data).2.mark_accepted fid).2

/-! ## Helper lemmas: router -/

namespace Router

theorem cleanup_eq_self {now : Nat} {r : Router}
    (h : ∀ p ∈ r.seen_times, now - p.2 ≤ SEEN_EXPIRY) :
    cleanup now r = r := by
  have h1 : r.seen_times.filter (fun p => decide (SEEN_EXPIRY < now - p.2)) = [] := by
    rw [List.filter_eq_nil_iff]
    intro p hp
    simpa using h p hp
  have h2 : r.seen_times.filter (fun p => decide ¬ SEEN_EXPIRY < now - p.2) =
      r.seen_times := by
    rw [List.filter_eq_self]
    intro p hp
    simpa using h p hp
  cases r with
  | mk seen seen_times our all stats =>
    simp only [cleanup] at *
    rw [h1, h2]
    simp

theorem cleanup_our_node_id (now : Nat) (r : Router) :
    (cleanup now r).our_node_id = r.our_node_id := rfl

theorem cleanup_stats (now : Nat) (r : Router) :
    (cleanup now r).stats = r.stats := rfl

theorem cleanup_all_nodes_seen (now : Nat) (r : Router) :
    (cleanup now r).all_nodes_seen = r.all_nodes_seen := rfl

theorem cleanup_seen_times_subset {now : Nat} {r : Router} {p : MessageId × Nat}
    (h : p ∈ (cleanup now r).seen_times) : p ∈ r.seen_times := by
  simp only [cleanup] at h
  exact (List.mem_filter.mp h).1

theorem cleanup_seen_subset {now : Nat} {r : Router} {id : MessageId}
    (h : id ∈ (cleanup now r).seen) : id ∈ r.seen := by
  simp only [cleanup] at h
  exact (List.mem_filter.mp h).1

/-- `cleanup` keeps a seen id all of whose timestamps are unexpired. -/
theorem mem_seen_cleanup {now : Nat} {r : Router} {id : MessageId}
    (hid : id ∈ r.seen)
    (h : ∀ p ∈ r.seen_times, p.1 = id → now - p.2 ≤ SEEN_EXPIRY) :
    id ∈ (cleanup now r).seen := by
  simp only [cleanup]
  rw [List.mem_filter]
  refine ⟨hid, ?_⟩
  rw [decide_eq_true_eq]
  intro hany
  rw [List.any_eq_true] at hany
  obtain ⟨p, hp, hpid⟩ := hany
  rw [List.mem_filter] at hp
  have h1 := h p hp.1 (by simpa using hpid)
  have h2 : SEEN_EXPIRY < now - p.2 := by simpa using hp.2
  omega

theorem mark_seen_stats (now : Nat) (r : Router) (id : MessageId) :
    (mark_seen now r id).stats = r.stats := by
  simp only [mark_seen]
  split <;> rfl

theorem mark_seen_our_node_id (now : Nat) (r : Router) (id : MessageId) :
    (mark_seen now r id).our_node_id = r.our_node_id := by
  simp only [mark_seen]
  split <;> rfl

theorem mark_seen_all_nodes_seen (now : Nat) (r : Router) (id : MessageId) :
    (mark_seen now r id).all_nodes_seen = r.all_nodes_seen := by
  simp only [mark_seen]
  split <;> rfl

theorem mem_setInsert_self (x : Nat) (s : List Nat) : x ∈ setInsert x s := by
  simp only [setInsert]
  split
  · assumption
  · exact List.mem_cons_self x s

theorem mem_setInsert_of_mem {y : Nat} (x : Nat) {s : List Nat} (h : y ∈ s) :
    y ∈ setInsert x s := by
  simp only [setInsert]
  split
  · exact h
  · exact List.mem_cons_of_mem x h

/-- After `mark_seen now r id`, the id is in the seen set, provided no
stale timestamp for the same id predates the call. -/
theorem mem_seen_mark_seen (now : Nat) (r : Router) (id : MessageId)
    (h : ∀ p ∈ r.seen_times, p.1 ≠ id) :
    id ∈ (mark_seen now r id).seen := by
  simp only [mark_seen]
  split
  · apply mem_seen_cleanup (mem_setInsert_self id r.seen)
    intro p hp hpid
    rcases List.mem_append.mp hp with hold | hnew
    · exact absurd hpid (h p hold)
    · simp only [List.mem_singleton] at hnew
      subst hnew
      simp [SEEN_EXPIRY]
  · exact mem_setInsert_self id r.seen

/-- `is_for_us` only reads the router's node id. -/
theorem is_for_us_congr {r r' : Router} (m : MeshMessage)
    (h : r'.our_node_id = r.our_node_id) : is_for_us r' m = is_for_us r m := by
  simp only [is_for_us, h]

/-- Field-level description of `absorb` (the committed tail of
`should_process`). -/
theorem absorb_spec (now : Nat) (r : Router) (m : MeshMessage) :
    (absorb now r m).seen = (mark_seen now r m.msg_id).seen ∧
    (absorb now r m).all_nodes_seen = setInsert m.sender_id r.all_nodes_seen ∧
    (absorb now r m).our_node_id = r.our_node_id ∧
    (absorb now r m).stats.messages_received =
      r.stats.messages_received + (if is_for_us r m then 1 else 0) ∧
    ((absorb now r m).stats.total_hops_observed,
     (absorb now r m).stats.hop_count_samples) =
      (match originalTTL m.msg_type with
       | some orig =>
         if 0 < orig - m.ttl then
           (r.stats.total_hops_observed + (orig - m.ttl),
            r.stats.hop_count_samples + 1)
         else (r.stats.total_hops_observed, r.stats.hop_count_samples)
       | none => (r.stats.total_hops_observed, r.stats.hop_count_samples)) := by
  simp only [absorb, record_hops]
  repeat' split
  all_goals simp_all [mark_seen_stats, mark_seen_our_node_id,
    mark_seen_all_nodes_seen, is_for_us]

/-- A message whose id is already in the seen-cache is rejected,
leaving the router unchanged. -/
theorem should_process_of_mem_seen {now : Nat} {r : Router} {m : MeshMessage}
    (hmem : m.msg_id ∈ r.seen) : should_process now r m = (false, r) := by
  simp only [should_process]
  split_ifs <;> simp_all

/-- On a `true` return, `should_process` took one of the two absorb paths,
and the three gate conditions held. -/
theorem should_process_true_spec {now : Nat} {r : Router} {m : MeshMessage}
    {r' : Router} (h : should_process now r m = (true, r')) :
    m.sender_id ≠ r.our_node_id ∧ 0 < m.ttl ∧ m.msg_id ∉ r.seen ∧
    (r' = absorb now r m ∨
      (MAX_SEEN_CACHE ≤ r.seen.length ∧ r' = absorb now (cleanup now r) m)) := by
  simp only [should_process] at h
  split_ifs at h with h1 h2 h3 h4 h5 <;>
    simp only [Prod.mk.injEq] at h
  · exact absurd h.1 (by simp)
  · exact absurd h.1 (by simp)
  · exact absurd h.1 (by simp)
  · exact absurd h.1 (by simp)
  · exact ⟨h1, Nat.pos_of_ne_zero h2, h3, Or.inr ⟨h4.2, h.2.symm⟩⟩
  · exact ⟨h1, Nat.pos_of_ne_zero h2, h3, Or.inl h.2.symm⟩

/-- On a `true` return, the message id has been inserted into the
seen-cache (given the seen/seen-times synchronisation `WF`). -/
theorem should_process_true_mem {now : Nat} {r : Router} {m : MeshMessage}
    {r' : Router} (h : should_process now r m = (true, r')) (hwf : WF r) :
    m.msg_id ∈ r'.seen := by
  obtain ⟨-, -, hnot, hcase⟩ := should_process_true_spec h
  have hkey : ∀ p ∈ r.seen_times, p.1 ≠ m.msg_id := by
    intro p hp heq
    exact hnot (heq ▸ hwf p hp)
  rcases hcase with rfl | ⟨-, rfl⟩
  · rw [(absorb_spec now r m).1]
    exact mem_seen_mark_seen now r m.msg_id hkey
  · rw [(absorb_spec now (cleanup now r) m).1]
    exact mem_seen_mark_seen _ _ _
      (fun p hp => hkey p (cleanup_seen_times_subset hp))

end Router

/-! ## Claims about the router -/

theorem capTimes_eq : capTimes = capList.map (fun i => (i, 0)) := rfl

theorem capList_mem {x : Nat} : x ∈ capList ↔ x < MAX_SEEN_CACHE := by
  show x ∈ List.range MAX_SEEN_CACHE ↔ x < MAX_SEEN_CACHE
  exact List.mem_range

theorem capList_length : capList.length = MAX_SEEN_CACHE := by
  show (List.range MAX_SEEN_CACHE).length = MAX_SEEN_CACHE
  exact List.length_range MAX_SEEN_CACHE

attribute [irreducible] capList capTimes

theorem routerAtCap_seen : routerAtCap.seen = capList := rfl

theorem routerAtCap_seen_times : routerAtCap.seen_times = capTimes := rfl

theorem routerAtCap_our : routerAtCap.our_node_id = 0 := rfl

theorem routerAtCap_fresh :
    ∀ p ∈ routerAtCap.seen_times, (0 : Nat) - p.2 ≤ SEEN_EXPIRY := by
  intro p hp
  rw [routerAtCap_seen_times, capTimes_eq, List.mem_map] at hp
  obtain ⟨i, -, rfl⟩ := hp
  simp [SEEN_EXPIRY]

theorem routerAtCap_wf : Router.WF routerAtCap := by
  intro p hp
  rw [routerAtCap_seen_times, capTimes_eq, List.mem_map] at hp
  rw [routerAtCap_seen]
  obtain ⟨i, hi, rfl⟩ := hp
  exact hi

theorem routerAtCap_cleanup : Router.cleanup 0 routerAtCap = routerAtCap :=
  Router.cleanup_eq_self routerAtCap_fresh

/-- Claim C1, counterexample: at a full (and unexpired) seen-cache, a
Text message satisfying all three conditions of the claimed "if and only
if" — foreign sender, positive TTL, unseen id — is nonetheless rejected
by `should_process`. -/
theorem claim_C1_counterexample :
    textAtCap.sender_id ≠ routerAtCap.our_node_id ∧
    0 < textAtCap.ttl ∧
    textAtCap.msg_id ∉ routerAtCap.seen ∧
    (Router.should_process 0 routerAtCap textAtCap).1 = false := by
  have hmem : textAtCap.msg_id ∉ routerAtCap.seen := by
    rw [routerAtCap_seen]
    intro hc
    have h1 := capList_mem.mp hc
    have h2 : textAtCap.msg_id = MAX_SEEN_CACHE := rfl
    exact Nat.ne_of_lt h1 h2
  have hlen : routerAtCap.seen.length = MAX_SEEN_CACHE := by
    rw [routerAtCap_seen]
    exact capList_length
  refine ⟨by decide, by decide, hmem, ?_⟩
  simp only [Router.should_process]
  rw [if_neg (by decide), if_neg (by decide), if_neg hmem,
      if_pos ⟨by decide, le_of_eq hlen.symm⟩,
      routerAtCap_cleanup, if_pos (le_of_eq hlen.symm)]

/-- Claim C1, amended: `should_process m` returns true iff the sender is
foreign, the TTL is positive, the id is unseen, and additionally the
message is an SOS or the seen-cache (possibly after the cleanup that a
full cache triggers) is below its soft cap of 10000 entries; in
particular it is always false when the sender is the router's own id. -/
theorem claim_C1 (now : Nat) (r : Router) (m : MeshMessage) :
    (Router.should_process now r m).1 = true ↔
      (m.sender_id ≠ r.our_node_id ∧ 0 < m.ttl ∧ m.msg_id ∉ r.seen ∧
        (m.msg_type = MessageType.SOS ∨ r.seen.length < MAX_SEEN_CACHE ∨
          (Router.cleanup now r).seen.length < MAX_SEEN_CACHE)) := by
  simp only [Router.should_process]
  split_ifs with h1 h2 h3 h4 h5
  · simp_all
  · simp_all
  · simp_all
  · constructor
    · intro hf
      exact absurd hf (by simp)
    · rintro ⟨-, -, -, hsos | hlt | hlt⟩
      · exact h4.1 hsos
      · omega
      · omega
  · constructor
    · intro _
      exact ⟨h1, Nat.pos_of_ne_zero h2, h3, Or.inr (Or.inr (by omega))⟩
    · intro _
      rfl
  · constructor
    · intro _
      refine ⟨h1, Nat.pos_of_ne_zero h2, h3, ?_⟩
      by_cases hsos : m.msg_type = MessageType.SOS
      · exact Or.inl hsos
      · refine Or.inr (Or.inl ?_)
        by_contra hge
        exact h4 ⟨hsos, by omega⟩
    · intro _
      rfl

/-- Claim C2: once `should_process` has returned true for `m`, the id of
`m` is in the seen-cache, and any call to `should_process` on a state
whose seen-cache still contains that id (with a message carrying the
same id) returns false and leaves the state unchanged. -/
theorem claim_C2 (now : Nat) (r : Router) (m : MeshMessage) (r' : Router)
    (h : Router.should_process now r m = (true, r')) (hwf : Router.WF r) :
    m.msg_id ∈ r'.seen ∧
    ∀ (now2 : Nat) (r2 : Router) (m2 : MeshMessage), m2.msg_id = m.msg_id →
      m.msg_id ∈ r2.seen → Router.should_process now2 r2 m2 = (false, r2) := by
  obtain ⟨-, -, hnot, hcase⟩ := Router.should_process_true_spec h
  constructor
  · have hkey : ∀ p ∈ r.seen_times, p.1 ≠ m.msg_id := by
      intro p hp heq
      exact hnot (heq ▸ hwf p hp)
    rcases hcase with rfl | ⟨-, rfl⟩
    · rw [(Router.absorb_spec now r m).1]
      exact Router.mem_seen_mark_seen now r m.msg_id hkey
    · rw [(Router.absorb_spec now (Router.cleanup now r) m).1]
      exact Router.mem_seen_mark_seen _ _ _
        (fun p hp => hkey p (Router.cleanup_seen_times_subset hp))
  · intro now2 r2 m2 hid hmem
    exact Router.should_process_of_mem_seen (by rw [hid]; exact hmem)

/-- Claim C2, witness at a concrete input. -/
theorem claim_C2_witness :
    textAtCap.msg_id ∈ ((Router.should_process 0 (Router.new 3) textAtCap).2).seen ∧
    Router.should_process 7 ((Router.should_process 0 (Router.new 3) textAtCap).2)
        textAtCap =
      (false, (Router.should_process 0 (Router.new 3) textAtCap).2) := by
  have h := claim_C2 0 (Router.new 3) textAtCap
    (Router.should_process 0 (Router.new 3) textAtCap).2
    (by decide) (by intro p hp; simp [Router.new] at hp)
  exact ⟨h.1, h.2 7 _ textAtCap rfl h.1⟩

/-- Claim C3: `prepare_forward` forwards a copy with the TTL decremented
and bumps `messages_relayed` whenever the TTL is at least 1 (so TTL 1 is
forwarded once, with TTL 0), and returns `none` leaving the router
unchanged exactly when the TTL is 0. -/
theorem claim_C3 (r : Router) (m : MeshMessage) :
    Router.prepare_forward r m =
      if m.ttl = 0 then (none, r)
      else
        (some { m with ttl := m.ttl - 1 },
         { r with stats := { r.stats with
             messages_relayed := r.stats.messages_relayed + 1 } }) := by
  simp only [Router.prepare_forward, MeshMessage.decrement_ttl]
  split_ifs <;> rfl

/-- Claim C4: at a seen-cache holding at least the soft cap of entries,
none of them expired, a fresh SOS from a foreign sender with positive TTL
is processed (and its id inserted), while an equally fresh Text message is
rejected. -/
theorem claim_C4 (now : Nat) (r : Router) (sos txt : MeshMessage)
    (hcap : MAX_SEEN_CACHE ≤ r.seen.length)
    (hfresh : ∀ p ∈ r.seen_times, now - p.2 ≤ SEEN_EXPIRY)
    (hwf : Router.WF r)
    (hsos_type : sos.msg_type = MessageType.SOS)
    (hsos_sender : sos.sender_id ≠ r.our_node_id)
    (hsos_ttl : 0 < sos.ttl)
    (hsos_new : sos.msg_id ∉ r.seen)
    (htxt_type : txt.msg_type = MessageType.Text)
    (htxt_sender : txt.sender_id ≠ r.our_node_id)
    (htxt_ttl : 0 < txt.ttl)
    (htxt_new : txt.msg_id ∉ r.seen) :
    (Router.should_process now r sos).1 = true ∧
    sos.msg_id ∈ (Router.should_process now r sos).2.seen ∧
    (Router.should_process now r txt).1 = false := by
  have hsosproc :
      Router.should_process now r sos = (true, Router.absorb now r sos) := by
    simp only [Router.should_process]
    rw [if_neg hsos_sender, if_neg (by omega), if_neg hsos_new,
        if_neg (by simp [hsos_type])]
  have htxtproc : (Router.should_process now r txt).1 = false := by
    simp only [Router.should_process]
    rw [if_neg htxt_sender, if_neg (by omega), if_neg htxt_new,
        if_pos ⟨by simp [htxt_type], hcap⟩, Router.cleanup_eq_self hfresh,
        if_pos hcap]
  refine ⟨by rw [hsosproc], ?_, htxtproc⟩
  rw [hsosproc]
  exact Router.should_process_true_mem hsosproc hwf

theorem sosAtCap_unseen : sosAtCap.msg_id ∉ routerAtCap.seen := by
  rw [routerAtCap_seen]
  intro hc
  have h1 := capList_mem.mp hc
  have h2 : sosAtCap.msg_id = MAX_SEEN_CACHE + 1 := rfl
  rw [h2] at h1
  omega

theorem textAtCap_unseen : textAtCap.msg_id ∉ routerAtCap.seen := by
  rw [routerAtCap_seen]
  intro hc
  have h1 := capList_mem.mp hc
  have h2 : textAtCap.msg_id = MAX_SEEN_CACHE := rfl
  exact Nat.ne_of_lt h1 h2

theorem routerAtCap_capacity : MAX_SEEN_CACHE ≤ routerAtCap.seen.length := by
  rw [routerAtCap_seen, capList_length]

/-- Claim C4, witness at the concrete capacity state. -/
theorem claim_C4_witness :
    (Router.should_process 0 routerAtCap sosAtCap).1 = true ∧
    sosAtCap.msg_id ∈ (Router.should_process 0 routerAtCap sosAtCap).2.seen ∧
    (Router.should_process 0 routerAtCap textAtCap).1 = false :=
  claim_C4 0 routerAtCap sosAtCap textAtCap
    routerAtCap_capacity routerAtCap_fresh routerAtCap_wf
    rfl (by decide) (by decide) sosAtCap_unseen
    rfl (by decide) (by decide) textAtCap_unseen

/-- Claim C9, counterexample: a fresh Text message arriving at its full
initial TTL of 10 is processed, yet no hop-count sample is recorded
(`hop_count_samples` stays 0 instead of being incremented by one, because
the code only records strictly positive hop counts). -/
theorem claim_C9_counterexample :
    (Router.should_process 0 (Router.new 1) textFullTTL).1 = true ∧
    (Router.should_process 0 (Router.new 1) textFullTTL).2.stats.hop_count_samples = 0 ∧
    (Router.new 1).stats.hop_count_samples = 0 := by
  decide

/-- Claim C9, amended: on a `true` return, `should_process` inserts the
message id, records the sender in the unique-nodes set, increments
`messages_received` iff the message is for us, and — only when the type
is hop-tracked and the saturating difference (initial TTL − current TTL)
is positive — adds that difference to `total_hops_observed` and
increments `hop_count_samples` by one; otherwise it leaves the two hop
counters unchanged. -/
theorem claim_C9 (now : Nat) (r : Router) (m : MeshMessage) (r' : Router)
    (h : Router.should_process now r m = (true, r')) (hwf : Router.WF r) :
    m.msg_id ∈ r'.seen ∧
    m.sender_id ∈ r'.all_nodes_seen ∧
    r'.stats.messages_received =
      r.stats.messages_received + (if Router.is_for_us r m then 1 else 0) ∧
    ((r'.stats.total_hops_observed, r'.stats.hop_count_samples) =
      match Router.originalTTL m.msg_type with
      | some orig =>
        if 0 < orig - m.ttl then
          (r.stats.total_hops_observed + (orig - m.ttl),
           r.stats.hop_count_samples + 1)
        else (r.stats.total_hops_observed, r.stats.hop_count_samples)
      | none => (r.stats.total_hops_observed, r.stats.hop_count_samples)) := by
  refine ⟨Router.should_process_true_mem h hwf, ?_⟩
  obtain ⟨-, -, -, hcase⟩ := Router.should_process_true_spec h
  have key : ∀ r1 : Router, r1.stats = r.stats →
      r1.our_node_id = r.our_node_id →
      m.sender_id ∈ (Router.absorb now r1 m).all_nodes_seen ∧
      (Router.absorb now r1 m).stats.messages_received =
        r.stats.messages_received + (if Router.is_for_us r m then 1 else 0) ∧
      (((Router.absorb now r1 m).stats.total_hops_observed,
        (Router.absorb now r1 m).stats.hop_count_samples) =
        match Router.originalTTL m.msg_type with
        | some orig =>
          if 0 < orig - m.ttl then
            (r.stats.total_hops_observed + (orig - m.ttl),
             r.stats.hop_count_samples + 1)
          else (r.stats.total_hops_observed, r.stats.hop_count_samples)
        | none => (r.stats.total_hops_observed, r.stats.hop_count_samples)) := by
    intro r1 hst hour
    obtain ⟨-, hall, -, hrecv, hhops⟩ := Router.absorb_spec now r1 m
    refine ⟨?_, ?_, ?_⟩
    · rw [hall]
      exact Router.mem_setInsert_self m.sender_id r1.all_nodes_seen
    · rw [hrecv, hst, Router.is_for_us_congr m hour]
    · rw [hhops, hst]
  rcases hcase with rfl | ⟨-, rfl⟩
  · exact key r rfl rfl
  · exact key (Router.cleanup now r) (Router.cleanup_stats now r)
      (Router.cleanup_our_node_id now r)

/-- Claim C9, witness: a Text message that has travelled two hops. -/
theorem claim_C9_witness :
    textTwoHops.msg_id ∈
      (Router.should_process 0 (Router.new 1) textTwoHops).2.seen ∧
    textTwoHops.sender_id ∈
      (Router.should_process 0 (Router.new 1) textTwoHops).2.all_nodes_seen ∧
    (Router.should_process 0 (Router.new 1) textTwoHops).2.stats.messages_received = 1 ∧
    (Router.should_process 0 (Router.new 1) textTwoHops).2.stats.total_hops_observed = 2 ∧
    (Router.should_process 0 (Router.new 1) textTwoHops).2.stats.hop_count_samples = 1 := by
  have h := claim_C9 0 (Router.new 1) textTwoHops
    (Router.should_process 0 (Router.new 1) textTwoHops).2
    (by decide) (by intro p hp; simp [Router.new] at hp)
  obtain ⟨h1, h2, h3, h4⟩ := h
  refine ⟨h1, h2, by simpa using h3, ?_, ?_⟩
  · have := congrArg Prod.fst h4
    simpa using this
  · have := congrArg Prod.snd h4
    simpa using this


/-! ## Helper lemmas: association lists -/

theorem alGet_alInsert_self {α : Type} (k : Nat) (v : α) (l : List (Nat × α)) :
    alGet k (alInsert k v l) = some v := by
  simp [alInsert, alGet]

theorem alGet_alUpdate_self {α : Type} (k : Nat) (f : α → α)
    (l : List (Nat × α)) :
    alGet k (alUpdate k f l) = (alGet k l).map f := by
  induction l with
  | nil => rfl
  | cons p rest ih =>
    obtain ⟨q, v⟩ := p
    by_cases h : q = k
    · subst h
      simp only [alUpdate, if_true]
      simp [alGet]
    · simp only [alUpdate]
      rw [if_neg h]
      simp [alGet, h]
      exact ih

theorem alGet_alRemove_self {α : Type} (k : Nat) (l : List (Nat × α)) :
    alGet k (alRemove k l) = none := by
  induction l with
  | nil => rfl
  | cons p rest ih =>
    obtain ⟨q, v⟩ := p
    by_cases h : q = k
    · subst h
      simpa [alRemove] using ih
    · simpa [alRemove, alGet, h] using ih

theorem alGet_isSome_iff {α : Type} (k : Nat) (l : List (Nat × α)) :
    (alGet k l).isSome = true ↔ k ∈ l.map Prod.fst := by
  induction l with
  | nil => simp [alGet]
  | cons p rest ih =>
    obtain ⟨q, v⟩ := p
    by_cases h : q = k
    · subst h
      simp [alGet]
    · simp [alGet, h, ih, Ne.symm h]

/-- Pigeonhole: a duplicate-free list of at least `n` naturals below `n`
contains every natural below `n`. -/
theorem mem_of_nodup_bounded {n : Nat} {keys : List Nat} (hnodup : keys.Nodup)
    (hrange : ∀ k ∈ keys, k < n) (hlen : n ≤ keys.length) :
    ∀ i, i < n → i ∈ keys := by
  intro i hi
  have hsub : keys.toFinset ⊆ Finset.range n := by
    intro x hx
    rw [List.mem_toFinset] at hx
    exact Finset.mem_range.mpr (hrange x hx)
  have hcard : (Finset.range n).card ≤ keys.toFinset.card := by
    rw [Finset.card_range, List.toFinset_card_of_nodup hnodup]
    exact hlen
  have heq := Finset.eq_of_subset_of_card_le hsub hcard
  have hmem : i ∈ keys.toFinset := by
    rw [heq]
    exact Finset.mem_range.mpr hi
  rwa [List.mem_toFinset] at hmem

/-! ## Claims about the file transfer -/

/-- Claim C5, counterexample: after a chunk with out-of-range sequence
number 7 arrives on a 1-chunk transfer, `is_incoming_complete` reports
true although sequence 0 — the only one in `[0, chunk_count)` — is absent
from the chunk mapping. -/
theorem claim_C5_counterexample :
    FileTransferManager.is_incoming_complete mgrOutOfRange 5 = true ∧
    (alGet 5 mgrOutOfRange.incoming).map
      (fun t => (t.metadata.chunk_count, alGet 0 t.chunks)) = some (1, none) := by
  decide

/-- Claim C5, amended: `is_incoming_complete` is the size test
`chunk_count ≤ |chunk mapping|`; when the stored sequence numbers are
duplicate-free and all lie in `[0, chunk_count)` this is equivalent to
"every sequence in `[0, chunk_count)` is present", but chunks with
out-of-range sequence numbers can make it true while in-range sequences
are missing. -/
theorem claim_C5 (m : FileTransferManager) (fid : Nat) (t : IncomingTransfer)
    (ht : alGet fid m.incoming = some t)
    (hnodup : (t.chunks.map Prod.fst).Nodup)
    (hrange : ∀ p ∈ t.chunks, p.1 < t.metadata.chunk_count) :
    FileTransferManager.is_incoming_complete m fid = true ↔
      ∀ i, i < t.metadata.chunk_count → (alGet i t.chunks).isSome = true := by
  have hkeys : ∀ k ∈ t.chunks.map Prod.fst, k < t.metadata.chunk_count := by
    intro k hk
    rw [List.mem_map] at hk
    obtain ⟨p, hp, rfl⟩ := hk
    exact hrange p hp
  have hlen : (t.chunks.map Prod.fst).length = t.chunks.length :=
    List.length_map t.chunks Prod.fst
  simp only [FileTransferManager.is_incoming_complete, ht, decide_eq_true_eq]
  constructor
  · intro hle i hi
    rw [alGet_isSome_iff]
    exact mem_of_nodup_bounded hnodup hkeys (by omega) i hi
  · intro hall
    have hsub : Finset.range t.metadata.chunk_count ⊆
        (t.chunks.map Prod.fst).toFinset := by
      intro x hx
      rw [List.mem_toFinset]
      rw [Finset.mem_range] at hx
      exact (alGet_isSome_iff x t.chunks).mp (hall x hx)
    have h1 := Finset.card_le_card hsub
    have h2 := List.toFinset_card_le (t.chunks.map Prod.fst)
    rw [Finset.card_range] at h1
    omega

/-- Claim C5, witness: on a transfer whose single chunk arrived in range,
the amended equivalence holds concretely. -/
theorem claim_C5_witness :
    FileTransferManager.is_incoming_complete mgrInRange 5 = true ↔
      ∀ i, i < tInRange.metadata.chunk_count →
        (alGet i tInRange.chunks).isSome = true :=
  claim_C5 mgrInRange 5 tInRange (by decide) (by decide) (by decide)


/-! ## Helper lemmas: chunking -/

theorem chunkSplit_flatten (l : List Nat) : (chunkSplit l).flatten = l := by
  induction l using chunkSplit.induct with
  | case1 => simp [chunkSplit]
  | case2 a rest ih =>
    rw [chunkSplit, List.flatten_cons, ih, List.take_append_drop]

theorem chunkSplit_length (l : List Nat) :
    l ≠ [] → (chunkSplit l).length = (l.length + CHUNK_SIZE - 1) / CHUNK_SIZE := by
  induction l using chunkSplit.induct with
  | case1 => intro h; exact absurd rfl h
  | case2 a rest ih =>
    intro _
    rw [chunkSplit]
    by_cases hd : (a :: rest).drop CHUNK_SIZE = []
    · rw [hd]
      rw [List.drop_eq_nil_iff, List.length_cons] at hd
      simp only [chunkSplit, List.length_cons, List.length_nil]
      rw [show CHUNK_SIZE = 65536 from rfl] at hd ⊢
      omega
    · have ih2 := ih hd
      have hlen : CHUNK_SIZE < (a :: rest).length := by
        by_contra hle
        exact hd (List.drop_eq_nil_of_le (by omega))
      rw [List.length_cons, ih2, List.length_drop]
      rw [List.length_cons] at hlen
      simp only [List.length_cons]
      rw [show CHUNK_SIZE = 65536 from rfl] at hlen ⊢
      omega

theorem chunkSplit_getD (l : List Nat) :
    ∀ i, i + 1 < (chunkSplit l).length →
      ((chunkSplit l).getD i []).length = CHUNK_SIZE := by
  induction l using chunkSplit.induct with
  | case1 =>
    intro i hi
    simp [chunkSplit] at hi
  | case2 a rest ih =>
    intro i hi
    rw [chunkSplit] at hi ⊢
    cases i with
    | zero =>
      rw [List.getD_cons_zero, List.length_take]
      have hd : (a :: rest).drop CHUNK_SIZE ≠ [] := by
        intro hnil
        rw [hnil] at hi
        simp [chunkSplit] at hi
      have hlen : CHUNK_SIZE < (a :: rest).length := by
        by_contra hle
        exact hd (List.drop_eq_nil_of_le (by omega))
      omega
    | succ j =>
      rw [List.getD_cons_succ]
      apply ih
      rw [List.length_cons] at hi
      omega

/-- Full description of `prepare_send`: failure exactly above the cap,
and the registered record (with its cursor at 0) otherwise. -/
theorem prepare_send_spec (hash : List Nat → Nat) (m : FileTransferManager)
    (dest fid : Nat) (fname : String) (data : List Nat) :
    (MAX_FILE_SIZE < data.length →
      ∃ e, (FileTransferManager.prepare_send hash m dest fid fname data).1 =
        Except.error e) ∧
    (data.length ≤ MAX_FILE_SIZE →
      ∃ t : OutgoingTransfer,
        alGet fid
            (FileTransferManager.prepare_send hash m dest fid fname
              data).2.outgoing = some t ∧
        t.accepted = false ∧
        t.next_chunk = 0 ∧
        t.metadata.chunk_count =
          max ((data.length + CHUNK_SIZE - 1) / CHUNK_SIZE) 1 ∧
        t.chunks.flatten = data ∧
        (∀ i, i + 1 < t.chunks.length →
          (t.chunks.getD i []).length = CHUNK_SIZE) ∧
        t.chunks.length = t.metadata.chunk_count ∧
        (data = [] → t.chunks = [[]] ∧ t.metadata.chunk_count = 1)) := by
  constructor
  · intro hbig
    simp only [FileTransferManager.prepare_send, if_pos hbig]
    exact ⟨_, rfl⟩
  · intro hsize
    simp only [FileTransferManager.prepare_send,
      if_neg (by omega : ¬ MAX_FILE_SIZE < data.length)]
    refine ⟨_, alGet_alInsert_self fid _ m.outgoing, rfl, rfl, rfl, ?_, ?_, ?_, ?_⟩
    · show (if data.isEmpty then [[]] else chunkSplit data).flatten = data
      cases data with
      | nil => rfl
      | cons a rest =>
        rw [if_neg (by simp)]
        exact chunkSplit_flatten (a :: rest)
    · show ∀ i, i + 1 < (if data.isEmpty then [[]] else chunkSplit data).length →
        ((if data.isEmpty then [[]] else chunkSplit data).getD i []).length =
          CHUNK_SIZE
      cases data with
      | nil =>
        intro i hi
        simp at hi
      | cons a rest =>
        rw [if_neg (by simp)]
        exact chunkSplit_getD (a :: rest)
    · show (if data.isEmpty then [[]] else chunkSplit data).length =
        max ((data.length + CHUNK_SIZE - 1) / CHUNK_SIZE) 1
      cases data with
      | nil =>
        show ([[]] : List (List Nat)).length =
          max ((List.length ([] : List Nat) + CHUNK_SIZE - 1) / CHUNK_SIZE) 1
        decide
      | cons a rest =>
        rw [if_neg (by simp), chunkSplit_length (a :: rest) (by simp)]
        have h1 : 1 ≤ ((a :: rest).length + CHUNK_SIZE - 1) / CHUNK_SIZE := by
          rw [List.length_cons, show CHUNK_SIZE = 65536 from rfl]
          omega
        omega
    · intro hnil
      subst hnil
      refine ⟨rfl, ?_⟩
      show max ((List.length ([] : List Nat) + CHUNK_SIZE - 1) / CHUNK_SIZE) 1 = 1
      decide

/-- Claim C6: `prepare_send` fails exactly when the file exceeds the
100 MiB cap; otherwise it registers an outgoing record with
`accepted = false`, chunk count `max(ceil(n / 65536), 1)`, chunks that
concatenate back to the file bytes with every chunk but the last of
exactly 64 KiB, and, for the empty file, exactly one zero-length chunk
with chunk count 1. -/
theorem claim_C6 (hash : List Nat → Nat) (m : FileTransferManager)
    (dest fid : Nat) (fname : String) (data : List Nat) :
    (MAX_FILE_SIZE < data.length →
      ∃ e, (FileTransferManager.prepare_send hash m dest fid fname data).1 =
        Except.error e) ∧
    (data.length ≤ MAX_FILE_SIZE →
      ∃ t : OutgoingTransfer,
        alGet fid
            (FileTransferManager.prepare_send hash m dest fid fname
              data).2.outgoing = some t ∧
        t.accepted = false ∧
        t.metadata.chunk_count =
          max ((data.length + CHUNK_SIZE - 1) / CHUNK_SIZE) 1 ∧
        t.chunks.flatten = data ∧
        (∀ i, i + 1 < t.chunks.length →
          (t.chunks.getD i []).length = CHUNK_SIZE) ∧
        t.chunks.length = t.metadata.chunk_count ∧
        (data = [] → t.chunks = [[]] ∧ t.metadata.chunk_count = 1)) := by
  obtain ⟨h1, h2⟩ := prepare_send_spec hash m dest fid fname data
  refine ⟨h1, fun hsize => ?_⟩
  obtain ⟨t, ha, hb, -, hc, hd, he, hf, hg⟩ := h2 hsize
  exact ⟨t, ha, hb, hc, hd, he, hf, hg⟩

theorem bigData_length : bigData.length = MAX_FILE_SIZE + 1 := by
  show (List.replicate (MAX_FILE_SIZE + 1) 0).length = MAX_FILE_SIZE + 1
  exact List.length_replicate _ _

attribute [irreducible] bigData

/-- Claim C6, witness: the oversize rejection one byte past 100 MiB, and
the record registered for a 3-byte file. -/
theorem claim_C6_witness :
    (∃ e, (FileTransferManager.prepare_send hashModel
        (FileTransferManager.new "s") 2 5 "big" bigData).1 = Except.error e) ∧
    (∃ t : OutgoingTransfer,
      alGet 6 (FileTransferManager.prepare_send hashModel
          (FileTransferManager.new "s") 2 6 "small" [1, 2, 3]).2.outgoing =
        some t ∧
      t.accepted = false ∧ t.chunks.flatten = [1, 2, 3] ∧
      t.chunks.length = t.metadata.chunk_count) := by
  constructor
  · exact (claim_C6 hashModel (FileTransferManager.new "s") 2 5 "big" bigData).1
      (by rw [bigData_length]; omega)
  · obtain ⟨t, h1, h2, -, h4, -, h6, -⟩ :=
      (claim_C6 hashModel (FileTransferManager.new "s") 2 6 "small"
        [1, 2, 3]).2 (by decide)
    exact ⟨t, h1, h2, h4, h6⟩


/-! ## Helper lemmas: reassembly -/

theorem assemble_error (chunks : List (Nat × List Nat)) :
    ∀ (n i : Nat), (∃ k, k < n ∧ alGet (i + k) chunks = none) →
      ∃ j, (∃ k, k < n ∧ i + k = j) ∧ alGet j chunks = none ∧
        FileTransferManager.assemble chunks i n = Except.error j := by
  intro n
  induction n with
  | zero =>
    rintro i ⟨k, hk, -⟩
    omega
  | succ n ih =>
    rintro i ⟨k, hk, hmiss⟩
    cases hget : alGet i chunks with
    | none =>
      refine ⟨i, ⟨0, by omega, by omega⟩, hget, ?_⟩
      simp [FileTransferManager.assemble, hget]
    | some c =>
      have hk0 : k ≠ 0 := by
        rintro rfl
        rw [Nat.add_zero] at hmiss
        rw [hget] at hmiss
        cases hmiss
      obtain ⟨j, ⟨k2, hk2, hj⟩, hjn, hrec⟩ :=
        ih (i + 1) ⟨k - 1, by omega, by
          rw [show i + 1 + (k - 1) = i + k by omega]
          exact hmiss⟩
      refine ⟨j, ⟨k2 + 1, by omega, by omega⟩, hjn, ?_⟩
      simp [FileTransferManager.assemble, hget, hrec]

theorem assemble_ok (chunks : List (Nat × List Nat)) :
    ∀ (n i : Nat), (∀ k, k < n → (alGet (i + k) chunks).isSome = true) →
      FileTransferManager.assemble chunks i n =
        Except.ok (((List.range' i n).map
          (fun j => (alGet j chunks).getD [])).flatten) := by
  intro n
  induction n with
  | zero =>
    intro i _
    simp [FileTransferManager.assemble]
  | succ n ih =>
    intro i hall
    have h0 := hall 0 (by omega)
    cases hget : alGet i chunks with
    | none =>
      rw [Nat.add_zero, hget] at h0
      cases h0
    | some c =>
      have ih2 := ih (i + 1) (fun k hk => by
        rw [show i + 1 + k = i + (k + 1) by omega]
        exact hall (k + 1) (by omega))
      simp only [FileTransferManager.assemble, hget, ih2]
      rw [List.range'_succ, List.map_cons, List.flatten_cons, hget]
      rfl

/-- Claim C7: on a registered incoming transfer, `finalize_incoming`
fails with a missing-chunk error when some sequence in
`[0, chunk_count)` is absent, fails with the hash-mismatch error when the
in-order reassembly hashes differently from the advertised hash, succeeds
with the save path otherwise — and in every case the incoming record is
removed from the manager. -/
theorem claim_C7 (hash : List Nat → Nat) (m : FileTransferManager) (fid : Nat)
    (t : IncomingTransfer) (ht : alGet fid m.incoming = some t) :
    alGet fid (FileTransferManager.finalize_incoming hash m fid).2.incoming =
      none ∧
    ((∃ i, i < t.metadata.chunk_count ∧ alGet i t.chunks = none) →
      ∃ j, j < t.metadata.chunk_count ∧ alGet j t.chunks = none ∧
        (FileTransferManager.finalize_incoming hash m fid).1 =
          Except.error ("Missing chunk " ++ toString j)) ∧
    ((∀ i, i < t.metadata.chunk_count → (alGet i t.chunks).isSome = true) →
      (hash (((List.range t.metadata.chunk_count).map
            (fun j => (alGet j t.chunks).getD [])).flatten) ≠
          t.metadata.sha256_hash →
        (FileTransferManager.finalize_incoming hash m fid).1 =
          Except.error "File hash mismatch - transfer corrupted") ∧
      (hash (((List.range t.metadata.chunk_count).map
            (fun j => (alGet j t.chunks).getD [])).flatten) =
          t.metadata.sha256_hash →
        (FileTransferManager.finalize_incoming hash m fid).1 =
          Except.ok (t.save_dir ++ "/" ++ t.metadata.filename))) := by
  have hrr : (List.range t.metadata.chunk_count).map
      (fun j => (alGet j t.chunks).getD []) =
    (List.range' 0 t.metadata.chunk_count).map
      (fun j => (alGet j t.chunks).getD []) := by
    rw [List.range_eq_range']
  refine ⟨?_, ?_, ?_⟩
  · simp only [FileTransferManager.finalize_incoming, ht]
    rcases hasm : FileTransferManager.assemble t.chunks 0
        t.metadata.chunk_count with j | data
    · simp [alGet_alRemove_self]
    · by_cases hh : hash data ≠ t.metadata.sha256_hash <;>
        simp [hh, alGet_alRemove_self]
  · rintro ⟨i, hi, hnone⟩
    obtain ⟨j, ⟨k, hk, hj⟩, hjn, hrec⟩ :=
      assemble_error t.chunks t.metadata.chunk_count 0
        ⟨i, hi, by rw [Nat.zero_add]; exact hnone⟩
    refine ⟨j, by omega, hjn, ?_⟩
    simp only [FileTransferManager.finalize_incoming, ht, hrec]
  · intro hall
    have hasm := assemble_ok t.chunks t.metadata.chunk_count 0
      (fun k hk => by rw [Nat.zero_add]; exact hall k hk)
    constructor
    · intro hneq
      rw [hrr] at hneq
      simp only [FileTransferManager.finalize_incoming, ht, hasm]
      rw [if_pos hneq]
    · intro heq
      rw [hrr] at heq
      simp only [FileTransferManager.finalize_incoming, ht, hasm]
      rw [if_neg (by rw [heq]; exact fun hc => hc rfl)]


/-- Claim C7, witness: the three finalize outcomes at concrete one-chunk
transfers — no chunk received, corrupted chunk, correct chunk — plus the
record removal on the success path. -/
theorem claim_C7_witness :
    (∃ j : Nat, (FileTransferManager.finalize_incoming hashModel mgrMissing 5).1 =
      Except.error ("Missing chunk " ++ toString j)) ∧
    (FileTransferManager.finalize_incoming hashModel mgrBad 5).1 =
      Except.error "File hash mismatch - transfer corrupted" ∧
    (FileTransferManager.finalize_incoming hashModel mgrInRange 5).1 =
      Except.ok ("save" ++ "/" ++ "blob") ∧
    alGet 5 (FileTransferManager.finalize_incoming hashModel
        mgrInRange 5).2.incoming = none := by
  have hmiss := claim_C7 hashModel mgrMissing 5 tMissing (by decide)
  have hbad := claim_C7 hashModel mgrBad 5 tBad (by decide)
  have hok := claim_C7 hashModel mgrInRange 5 tInRange (by decide)
  refine ⟨?_, ?_, ?_, hok.1⟩
  · obtain ⟨j, -, -, hj⟩ := hmiss.2.1 ⟨0, by decide, by decide⟩
    exact ⟨j, hj⟩
  · exact (hbad.2.2 (by decide)).1 (by decide)
  · exact (hok.2.2 (by decide)).2 (by decide)


/-! ## Helper lemmas: chunk dispatch -/

theorem next_chunk_unaccepted {m : FileTransferManager} {fid : Nat}
    {t : OutgoingTransfer} (ht : alGet fid m.outgoing = some t)
    (hacc : t.accepted = false) :
    FileTransferManager.next_chunk m fid = (none, m) := by
  simp [FileTransferManager.next_chunk, ht, hacc]

theorem next_chunk_done {m : FileTransferManager} {fid : Nat}
    {t : OutgoingTransfer} (ht : alGet fid m.outgoing = some t)
    (hge : t.metadata.chunk_count ≤ t.next_chunk) :
    FileTransferManager.next_chunk m fid = (none, m) := by
  simp [FileTransferManager.next_chunk, ht, hge]

theorem next_chunk_step {m : FileTransferManager} {fid : Nat}
    {t : OutgoingTransfer} (ht : alGet fid m.outgoing = some t)
    (hacc : t.accepted = true)
    (hlt : t.next_chunk < t.metadata.chunk_count) :
    FileTransferManager.next_chunk m fid =
      (some { file_id := fid, sequence := t.next_chunk,
              data := t.chunks.getD t.next_chunk [] },
       { m with outgoing :=
          (alUpdate fid (fun u => { u with next_chunk := u.next_chunk + 1 })
            m.outgoing) }) := by
  simp only [FileTransferManager.next_chunk, ht]
  rw [if_neg (fun hcon =>
    hcon.elim (fun hc => hc hacc) (fun hc => by omega))]

theorem mark_accepted_some {m : FileTransferManager} {fid : Nat}
    {t : OutgoingTransfer} (ht : alGet fid m.outgoing = some t) :
    FileTransferManager.mark_accepted m fid =
      (true, { m with outgoing :=
        (alUpdate fid (fun u => { u with accepted := true }) m.outgoing) }) := by
  simp [FileTransferManager.mark_accepted, ht]

theorem range_map_getD (l : List (List Nat)) :
    (List.range l.length).map (fun i => l.getD i []) = l := by
  apply List.ext_getElem (by simp)
  intro i h1 h2
  simp [List.getD_eq_getElem?_getD, List.getElem?_eq_getElem h2]

/-- Draining `k` calls of `next_chunk` from an accepted transfer whose
remaining chunk budget is exactly `k` yields the payloads for sequences
`next_chunk, …, next_chunk + k - 1` in order and advances the cursor to
`chunk_count`. -/
theorem drainChunks_spec (fid : Nat) :
    ∀ (k : Nat) (m : FileTransferManager) (t : OutgoingTransfer),
      alGet fid m.outgoing = some t → t.accepted = true →
      t.metadata.chunk_count = t.next_chunk + k →
      (drainChunks fid k m).1 =
        (List.range' t.next_chunk k).map
          (fun i => { file_id := fid, sequence := i,
                      data := t.chunks.getD i [] }) ∧
      alGet fid (drainChunks fid k m).2.outgoing =
        some { t with next_chunk := t.next_chunk + k } := by
  intro k
  induction k with
  | zero =>
    intro m t ht hacc hcount
    exact ⟨by simp [drainChunks], by simpa [drainChunks] using ht⟩
  | succ k ih =>
    intro m t ht hacc hcount
    have hstep := next_chunk_step ht hacc (by omega)
    have ht2 : alGet fid
        ({ m with outgoing :=
          (alUpdate fid (fun u => { u with next_chunk := u.next_chunk + 1 })
            m.outgoing) }).outgoing =
        some { t with next_chunk := t.next_chunk + 1 } := by
      show alGet fid (alUpdate fid _ m.outgoing) = _
      rw [alGet_alUpdate_self, ht]
      rfl
    obtain ⟨h1, h2⟩ := ih _ { t with next_chunk := t.next_chunk + 1 } ht2
      (by exact hacc)
      (by
        show t.metadata.chunk_count = t.next_chunk + 1 + k
        omega)
    constructor
    · show (drainChunks fid (k + 1) m).1 = _
      rw [drainChunks, hstep]
      simp only []
      rw [List.range'_succ, List.map_cons]
      exact congrArg (_ :: ·) h1
    · show alGet fid (drainChunks fid (k + 1) m).2.outgoing = _
      rw [drainChunks, hstep]
      simp only []
      rw [h2]
      congr 2
      show t.next_chunk + 1 + k = t.next_chunk + (k + 1)
      omega


/-- Claim C10: for a transfer registered by `prepare_send`, calls before
`mark_accepted` return none and leave the state unchanged; after
`mark_accepted`, draining `next_chunk` yields the sequence numbers
`0, …, chunk_count − 1` in order, exactly once each, whose data
concatenates to the original bytes, and the next call after the cursor
reaches `chunk_count` returns none. -/
theorem claim_C10 (hash : List Nat → Nat) (m0 : FileTransferManager)
    (dest fid : Nat) (fname : String) (data : List Nat)
    (hsize : data.length ≤ MAX_FILE_SIZE) :
    FileTransferManager.next_chunk
        (FileTransferManager.prepare_send hash m0 dest fid fname data).2 fid =
      (none, (FileTransferManager.prepare_send hash m0 dest fid fname data).2) ∧
    (sendDrain hash m0 dest fid fname data).1.map FileChunkPayload.sequence =
      List.range (sendChunkCount data) ∧
    ((sendDrain hash m0 dest fid fname data).1.map
        FileChunkPayload.data).flatten = data ∧
    FileTransferManager.next_chunk
        (sendDrain hash m0 dest fid fname data).2 fid =
      (none, (sendDrain hash m0 dest fid fname data).2) := by
  obtain ⟨-, hreg⟩ := prepare_send_spec hash m0 dest fid fname data
  obtain ⟨t, ht, hacc, hnext, hcc, hflat, -, hlen, -⟩ := hreg hsize
  have hcc2 : t.metadata.chunk_count = sendChunkCount data := hcc
  have hlen2 : t.chunks.length = sendChunkCount data := hlen.trans hcc2
  refine ⟨next_chunk_unaccepted ht hacc, ?_⟩
  have hma := mark_accepted_some ht
  have hsd : sendDrain hash m0 dest fid fname data =
      drainChunks fid (sendChunkCount data)
        { (FileTransferManager.prepare_send hash m0 dest fid fname data).2 with
          outgoing := (alUpdate fid (fun u => { u with accepted := true })
            (FileTransferManager.prepare_send hash m0 dest fid fname
              data).2.outgoing) } := by
    rw [sendDrain, hma]
  have ht2 : alGet fid
      ({ (FileTransferManager.prepare_send hash m0 dest fid fname data).2 with
        outgoing := (alUpdate fid (fun u => { u with accepted := true })
          (FileTransferManager.prepare_send hash m0 dest fid fname
            data).2.outgoing) }).outgoing =
      some { t with accepted := true } := by
    show alGet fid (alUpdate fid _ _) = _
    rw [alGet_alUpdate_self, ht]
    rfl
  obtain ⟨h1, h2⟩ := drainChunks_spec fid (sendChunkCount data) _
    { t with accepted := true } ht2 rfl
    (by
      show t.metadata.chunk_count = t.next_chunk + sendChunkCount data
      omega)
  have hnext2 : ({ t with accepted := true } : OutgoingTransfer).next_chunk = 0 :=
    hnext
  have hchunks : ({ t with accepted := true } : OutgoingTransfer).chunks =
    t.chunks := rfl
  rw [hnext2, hchunks] at h1
  rw [← List.range_eq_range'] at h1
  refine ⟨?_, ?_, ?_⟩
  · rw [hsd, h1, List.map_map]
    have hseq : (FileChunkPayload.sequence ∘ fun i =>
        ({ file_id := fid, sequence := i,
           data := t.chunks.getD i [] } : FileChunkPayload)) = id := rfl
    rw [hseq, List.map_id]
  · rw [hsd, h1, List.map_map]
    show ((List.range (sendChunkCount data)).map
      (fun i => t.chunks.getD i [])).flatten = data
    rw [← hlen2, range_map_getD]
    exact hflat
  · rw [hsd]
    refine next_chunk_done h2 ?_
    show t.metadata.chunk_count ≤ t.next_chunk + sendChunkCount data
    omega

/-- Claim C10, witness: a 3-byte file drains as exactly the single
sequence-0 chunk carrying the file bytes, with none before acceptance and
none afterwards. -/
theorem claim_C10_witness :
    FileTransferManager.next_chunk
        (FileTransferManager.prepare_send hashModel
          (FileTransferManager.new "s") 2 6 "f" [1, 2, 3]).2 6 =
      (none, (FileTransferManager.prepare_send hashModel
        (FileTransferManager.new "s") 2 6 "f" [1, 2, 3]).2) ∧
    (sendDrain hashModel (FileTransferManager.new "s") 2 6 "f"
        [1, 2, 3]).1.map FileChunkPayload.sequence =
      List.range (sendChunkCount [1, 2, 3]) ∧
    ((sendDrain hashModel (FileTransferManager.new "s") 2 6 "f"
        [1, 2, 3]).1.map FileChunkPayload.data).flatten = [1, 2, 3] ∧
    FileTransferManager.next_chunk
        (sendDrain hashModel (FileTransferManager.new "s") 2 6 "f"
          [1, 2, 3]).2 6 =
      (none, (sendDrain hashModel (FileTransferManager.new "s") 2 6 "f"
        [1, 2, 3]).2) :=
  claim_C10 hashModel (FileTransferManager.new "s") 2 6 "f" [1, 2, 3]
    (by decide)

end Mesh
